import Mathlib

/-!
Verification development for the Lovely repository: a shallow embedding of
the cognition core (Fact Store, Progression State Machine, Policy Gate,
Context Assembler) together with the relational defaults of
`src/supabase_schema.sql`, and theorems about them.

The repository ships the relational schema, documentation and mock
frontends; the cognition-core implementation itself is not present under
`src/`, so those operations are modelled from the specification
(sections 4.1-4.4, 5 and 7 of `spec.md`): every such definition carries a
doc comment beginning `Modelled from the spec:`. Definitions taken from
files present in the repository cite the file instead.
-/

namespace Lovely

/-- The progression stages, in the enum order declared by
`src/supabase_schema.sql` (`CREATE TYPE progression_stage AS ENUM`):
discovery, rapport, logistics_candidate, proposal, negotiation,
confirmation, post_confirmation. -/
inductive Stage where
  | discovery
  | rapport
  | logistics_candidate
  | proposal
  | negotiation
  | confirmation
  | post_confirmation
deriving DecidableEq

/-- Position of a stage in the declared enum order (0-based). -/
def stageIdx : Stage → Nat
  | .discovery => 0
  | .rapport => 1
  | .logistics_candidate => 2
  | .proposal => 3
  | .negotiation => 4
  | .confirmation => 5
  | .post_confirmation => 6

/-- Modelled from the spec: the signal bundle handed to `evaluate`
(spec 4.2) — reciprocity ratio, elapsed time since the last inbound
message, the configurable stall window, and the named per-edge advance
preconditions (whose threshold rules are defined at deployment, spec 8),
abstracted as one Boolean per source stage. -/
structure Signals where
  reciprocity : ℚ
  elapsedSinceInbound : ℚ
  stallWindow : ℚ
  advancePre : Stage → Bool

/-- Modelled from the spec: the stall condition of spec 4.2 — no inbound
message from the contact for longer than the configurable stall window. -/
def stalled (s : Signals) : Bool :=
  decide (s.stallWindow < s.elapsedSinceInbound)

/-- Modelled from the spec: `evaluate(contact, signals)` of the
Progression State Machine (spec 4.2). Forward edges follow the enum
order, each guarded by its named precondition; `negotiation` may instead
regress to `logistics_candidate` when the stall condition holds;
`post_confirmation` is terminal. An illegal or unsatisfied transition is
not an error: the stage is returned unchanged with `transitioned = false`
(spec 7, `IllegalTransitionAttempt`). -/
def evaluate (st : Stage) (s : Signals) : Stage × Bool :=
  match st with
  | .discovery =>
      if s.advancePre .discovery then (.rapport, true) else (.discovery, false)
  | .rapport =>
      if s.advancePre .rapport then (.logistics_candidate, true) else (.rapport, false)
  | .logistics_candidate =>
      if s.advancePre .logistics_candidate then (.proposal, true) else (.logistics_candidate, false)
  | .proposal =>
      if s.advancePre .proposal then (.negotiation, true) else (.proposal, false)
  | .negotiation =>
      if stalled s then (.logistics_candidate, true)
      else if s.advancePre .negotiation then (.confirmation, true)
      else (.negotiation, false)
  | .confirmation =>
      if s.advancePre .confirmation then (.post_confirmation, true) else (.confirmation, false)
  | .post_confirmation => (.post_confirmation, false)

/-- A row of the `contacts` table of `src/supabase_schema.sql`
(lines 38-58): identity columns plus the defaulted columns `ai_enabled`
(DEFAULT FALSE), `progression_stage` (DEFAULT 'discovery') and the
nullable metric columns. `reciprocity_metric` embeds the schema's
reciprocity-ratio column. -/
structure ContactRow where
  user_id : Nat
  whatsapp_id : String
  name : Option String
  ai_enabled : Bool
  progression_stage : Stage
  last_inbound_message_at : Option ℚ
  last_ai_reply_at : Option ℚ
  response_latency_avg : Option ℚ
  reciprocity_metric : Option ℚ
deriving DecidableEq

/-- An INSERT into `contacts` (src/supabase_schema.sql lines 38-58) that
supplies only the non-defaulted columns: every defaulted column receives
its SQL DEFAULT — `ai_enabled` FALSE, `progression_stage` 'discovery',
the metric columns NULL. -/
def insertContact (uid : Nat) (wid : String) (nm : Option String) : ContactRow :=
  { user_id := uid
    whatsapp_id := wid
    name := nm
    ai_enabled := false
    progression_stage := .discovery
    last_inbound_message_at := none
    last_ai_reply_at := none
    response_latency_avg := none
    reciprocity_metric := none }

/-- A fact about a contact, with the fields of spec 3:
`(key, value, confidence, decay_weight, version, first_observed,
last_reinforced, origin_message_id)`, mirroring the columns of the
`facts` table in `src/supabase_schema.sql` (lines 83-100). Times and
weights are rationals. -/
structure Fact where
  key : String
  value : String
  confidence : ℚ
  decay_weight : ℚ
  version : Nat
  first_observed : ℚ
  last_reinforced : ℚ
  origin_message_id : Nat
deriving DecidableEq

/-- A candidate fact handed to the core by the ingestion collaborator
(spec 6): `CandidateFact{key, value, confidence, origin_message_id}`. -/
structure CandidateFact where
  key : String
  value : String
  confidence : ℚ
  origin_message_id : Nat
deriving DecidableEq

/-- Modelled from the spec: the error taxonomy of spec 7 that the core
itself can raise (policy rejections and non-transitions are decision
values, not errors). -/
inductive ErrorKind where
  | UnknownContact
  | TransientPersistenceFailure
deriving DecidableEq

/-- Contact identifiers are opaque stable ids (spec 3); the schema uses
integer keys. -/
abbrev ContactId := Nat

/-- A fact history is addressed by contact id and fact key; it holds the
versions of that key newest-first (append-only, spec 3). -/
abbrev FactKey := ContactId × String

/-- Look a key up in an association list of fact histories. -/
def histLookup : List (FactKey × List Fact) → FactKey → Option (List Fact)
  | [], _ => none
  | (k', v) :: t, k => if k' = k then some v else histLookup t k

/-- Replace the history stored at a key, inserting it if absent. -/
def histSet : List (FactKey × List Fact) → FactKey → List Fact → List (FactKey × List Fact)
  | [], k, v => [(k, v)]
  | (k', v') :: t, k, v => if k' = k then (k, v) :: t else (k', v') :: histSet t k v

/-- Modelled from the spec: the Fact Store state — the set of contacts
already created upstream by the persistence collaborator (spec 4.1,
merge never creates one) and the per-(contact, key) fact histories. -/
structure Store where
  knownContacts : List ContactId
  facts : List (FactKey × List Fact)
deriving DecidableEq

/-- Clamp a weight to at most 1.0 (spec 4.1: decay weights live in
[0, 1] and reinforcement results are clamped to 1.0). -/
def clamp1 (q : ℚ) : ℚ := min 1 q

/-- Modelled from the spec: the version-1 fact inserted when no prior
fact with the candidate's key exists — `decay_weight = confidence`,
both observation times set to now (spec 4.1). -/
def freshFact (now : ℚ) (c : CandidateFact) : Fact :=
  { key := c.key
    value := c.value
    confidence := c.confidence
    decay_weight := c.confidence
    version := 1
    first_observed := now
    last_reinforced := now
    origin_message_id := c.origin_message_id }

/-- Modelled from the spec: `merge(contact, candidateFact)` (spec 4.1).
An unknown contact fails with `ErrorKind.UnknownContact` and never
creates the contact. With no prior fact for the key, the fresh
version-1 fact is inserted. With a prior history (newest first): a
candidate whose value matches the most recent value reinforces in place
(`last_reinforced = now`, decay weight boosted by the reinforcement
bonus, clamped) without bumping the version; a differing value appends
a new version with `decay_weight = clamp(max(existing_decay_weight,
candidate_confidence) * bonus)`. -/
def merge (bonus : ℚ) (now : ℚ) (s : Store) (cid : ContactId) (c : CandidateFact) :
    Except ErrorKind Store :=
  if cid ∈ s.knownContacts then
    match histLookup s.facts (cid, c.key) with
    | none =>
        Except.ok { s with facts := histSet s.facts (cid, c.key) [freshFact now c] }
    | some [] =>
        Except.ok { s with facts := histSet s.facts (cid, c.key) [freshFact now c] }
    | some (f :: t) =>
        if c.value = f.value then
          let f' : Fact :=
            { f with last_reinforced := now,
                     decay_weight := clamp1 (f.decay_weight * bonus) }
          Except.ok { s with facts := histSet s.facts (cid, c.key) (f' :: t) }
        else
          let f' : Fact :=
            { key := c.key
              value := c.value
              confidence := c.confidence
              decay_weight := clamp1 (max f.decay_weight c.confidence * bonus)
              version := f.version + 1
              first_observed := now
              last_reinforced := now
              origin_message_id := c.origin_message_id }
          Except.ok { s with facts := histSet s.facts (cid, c.key) (f' :: f :: t) }
  else
    Except.error ErrorKind.UnknownContact

/-- The stored history for a contact and key (newest first; empty when
nothing is stored). -/
def factHistory (s : Store) (cid : ContactId) (k : String) : List Fact :=
  (histLookup s.facts (cid, k)).getD []

/-- The most recent stored fact for a contact and key, if any. -/
def latestFact (s : Store) (cid : ContactId) (k : String) : Option Fact :=
  (factHistory s cid k).head?

/-- The version of the most recent stored fact for a contact and key
(0 when nothing is stored yet). -/
def latestVersion (s : Store) (cid : ContactId) (k : String) : Nat :=
  match latestFact s cid k with
  | none => 0
  | some f => f.version

/-- Modelled from the spec: a sequence of merges for one contact,
applied in processing order, each candidate paired with its processing
time; the first failure aborts the sequence (spec 5: a pipeline run
fails atomically). -/
def mergeAll (bonus : ℚ) (cid : ContactId) :
    Store → List (CandidateFact × ℚ) → Except ErrorKind Store
  | s, [] => Except.ok s
  | s, (c, t) :: rest =>
      match merge bonus t s cid c with
      | Except.ok s' => mergeAll bonus cid s' rest
      | Except.error e => Except.error e

/-- Modelled from the spec: the lazy decay of spec 4.1 — each fact's
effective weight for ranking is
`decay_weight * exp(-lambda * (now - last_reinforced))`, a pure function
of elapsed time. -/
noncomputable def effectiveWeight (lam : ℝ) (now : ℚ) (f : Fact) : ℝ :=
  (f.decay_weight : ℝ) * Real.exp (-(lam * ((now : ℝ) - (f.last_reinforced : ℝ))))

/-- Modelled from the spec: the deterministic ranking order of
`topFacts` (spec 4.2): higher effective weight first, ties broken by
most recent `last_reinforced`, then lowest key lexicographically. -/
noncomputable def rankBefore (lam : ℝ) (now : ℚ) (f g : Fact) : Bool :=
  @decide (effectiveWeight lam now g < effectiveWeight lam now f ∨
    (effectiveWeight lam now g = effectiveWeight lam now f ∧
      (g.last_reinforced < f.last_reinforced ∨
        (g.last_reinforced = f.last_reinforced ∧ f.key ≤ g.key))))
    (Classical.propDecidable _)

/-- Insert an element into a list sorted by `le`. -/
def insertBy (le : α → α → Bool) (a : α) : List α → List α
  | [] => [a]
  | b :: t => if le a b then a :: b :: t else b :: insertBy le a t

/-- Insertion sort by `le`. -/
def sortBy (le : α → α → Bool) : List α → List α
  | [] => []
  | a :: t => insertBy le a (sortBy le t)

/-- The most recent version of every key stored for a contact — what the
store currently believes about the contact (spec 4.1). -/
def contactLatestFacts (s : Store) (cid : ContactId) : List Fact :=
  s.facts.filterMap (fun p => if p.1.1 = cid then p.2.head? else none)

/-- Modelled from the spec: `topFacts(contact, n)` (spec 4.1) — the n
facts with highest effective weight under the deterministic tie-break
order. -/
noncomputable def topFacts (lam : ℝ) (now : ℚ) (s : Store) (cid : ContactId)
    (n : Nat) : List Fact :=
  (sortBy (rankBefore lam now) (contactLatestFacts s cid)).take n

/-- A message, the read-only input of spec 3:
`(contact_id, is_inbound, text, timestamp, message_id unique)`; the core
treats `message_id` as an idempotency key. -/
structure Message where
  contact_id : ContactId
  is_inbound : Bool
  text : String
  timestamp : ℚ
  message_id : String
deriving DecidableEq

/-- The ephemeral context object handed to the external reply generator
(spec 3): ranked fact subset, current stage, bounded recent-message
window. -/
structure AssembledContext where
  facts : List Fact
  stage : Stage
  window : List Message

/-- Total text size of a message window. -/
def totalLen (msgs : List Message) : Nat :=
  (msgs.map (fun m => m.text.length)).sum

/-- Modelled from the spec: deterministic truncation of the message
window (spec 4.4) — drop the oldest messages first until the window fits
the size budget. -/
def fitBudget (budget : Nat) : List Message → List Message
  | [] => []
  | m :: t => if totalLen (m :: t) ≤ budget then m :: t else fitBudget budget t

/-- Modelled from the spec: `assemble(contact, message)` (spec 4.4) —
`topFacts(contact, K)`, the current stage, and the last `M` messages in
chronological order, truncated deterministically to the size budget. -/
noncomputable def assemble (lam : ℝ) (K M budget : Nat) (s : Store) (cid : ContactId)
    (stage : Stage) (history : List Message) (now : ℚ) : AssembledContext :=
  { facts := topFacts lam now s cid K
    stage := stage
    window := fitBudget budget (history.drop (history.length - M)) }

/-- Modelled from the spec: the state a per-contact pipeline run reads
and writes — the Fact Store, each contact's progression stage, and the
set of already-processed `message_id`s used for the check-and-skip of
spec 5. -/
structure PipelineState where
  store : Store
  stages : List (ContactId × Stage)
  processed : List String
deriving DecidableEq

/-- Look a contact's stage up in the per-contact stage table. -/
def stageLookup : List (ContactId × Stage) → ContactId → Option Stage
  | [], _ => none
  | (c, st) :: t, cid => if c = cid then some st else stageLookup t cid

/-- The stage of a contact (new contacts start in `discovery`, the
schema default). -/
def stageOf (ps : PipelineState) (cid : ContactId) : Stage :=
  (stageLookup ps.stages cid).getD Stage.discovery

/-- Replace a contact's stage, inserting it if absent. -/
def stageSet : List (ContactId × Stage) → ContactId → Stage → List (ContactId × Stage)
  | [], cid, st => [(cid, st)]
  | (c, st') :: t, cid, st =>
      if c = cid then (cid, st) :: t else (c, st') :: stageSet t cid st

/-- Modelled from the spec: one per-contact pipeline run (spec 2 and 5):
check-and-skip on `message_id`, then Fact Store merge of the extracted
candidate facts followed by Progression evaluation, applied as one
logical unit — a merge failure aborts the run with no partial mutation
observable, confined to this single message. -/
def processMessage (bonus : ℚ) (sig : Signals) (ps : PipelineState) (m : Message)
    (cands : List CandidateFact) : PipelineState :=
  if m.message_id ∈ ps.processed then ps
  else
    match mergeAll bonus m.contact_id ps.store (cands.map (fun c => (c, m.timestamp))) with
    | Except.error _ => ps
    | Except.ok store' =>
        { store := store'
          stages := stageSet ps.stages m.contact_id (evaluate (stageOf ps m.contact_id) sig).1
          processed := m.message_id :: ps.processed }

/-- The policy-gate reason codes of spec 4.3. -/
inductive ReasonCode where
  | AutomationDisabled
  | SensitiveTopic
  | RateLimited
  | StageNotReady
deriving DecidableEq

/-- Modelled from the spec: everything the Policy Gate consults
(spec 4.3) — the global and per-contact automation flags, the external
sensitivity classifier's verdict, the rate-limit admission state, the
contact's progression stage, and whether the reply category is one that
is only permitted from `logistics_candidate` onward. -/
structure PolicyInput where
  globalEnabled : Bool
  contactEnabled : Bool
  sensitiveFlagged : Bool
  rateExhausted : Bool
  stage : Stage
  needsLogistics : Bool
deriving DecidableEq

/-- Modelled from the spec: the stage-appropriateness check of
spec 4.3 — a logistics-category reply is only permitted once Progression
has reached `logistics_candidate` or later. -/
def stageReady (i : PolicyInput) : Bool :=
  !i.needsLogistics || decide (stageIdx Stage.logistics_candidate ≤ stageIdx i.stage)

/-- The ephemeral policy decision of spec 3: admitted plus reason
codes. -/
structure PolicyDecision where
  admitted : Bool
  reasons : List ReasonCode
deriving DecidableEq

/-- Modelled from the spec: the Policy Gate (spec 4.3) — the four checks
applied in fixed order, short-circuiting on the first failure:
automation enabled, sensitivity screen, rate limit,
stage-appropriateness. -/
def policyGate (i : PolicyInput) : PolicyDecision :=
  if !(i.globalEnabled && i.contactEnabled) then
    PolicyDecision.mk false [ReasonCode.AutomationDisabled]
  else if i.sensitiveFlagged then
    PolicyDecision.mk false [ReasonCode.SensitiveTopic]
  else if i.rateExhausted then
    PolicyDecision.mk false [ReasonCode.RateLimited]
  else if !stageReady i then
    PolicyDecision.mk false [ReasonCode.StageNotReady]
  else
    PolicyDecision.mk true []

/-- The checks of spec 4.3 in their fixed order, as the list of ALL
violated checks — the specification-level description against which the
short-circuiting gate is compared. -/
def checkViolations (i : PolicyInput) : List ReasonCode :=
  (if !(i.globalEnabled && i.contactEnabled) then [ReasonCode.AutomationDisabled] else []) ++
  (if i.sensitiveFlagged then [ReasonCode.SensitiveTopic] else []) ++
  (if i.rateExhausted then [ReasonCode.RateLimited] else []) ++
  (if !stageReady i then [ReasonCode.StageNotReady] else [])

/-- Modelled from the spec: the Context Assembler run inside a pipeline,
in state-passing form — it reads the pipeline state and produces the
context; being side-effect-free (spec 4.4) it hands the state back
unchanged. -/
noncomputable def assembleStep (lam : ℝ) (K M budget : Nat) (ps : PipelineState)
    (m : Message) (history : List Message) : AssembledContext × PipelineState :=
  (assemble lam K M budget ps.store m.contact_id (stageOf ps m.contact_id) history
    m.timestamp, ps)

theorem histLookup_histSet_self (l : List (FactKey × List Fact)) (k : FactKey)
    (v : List Fact) : histLookup (histSet l k v) k = some v := by
  induction l with
  | nil => simp [histSet, histLookup]
  | cons p t ih =>
      obtain ⟨k', v'⟩ := p
      by_cases h : k' = k
      · simp [histSet, histLookup, h]
      · simp [histSet, histLookup, h, ih]

/-- C3: merging a candidate fact for a known contact whose key has no
prior fact inserts exactly one stored fact for that key, at version 1,
with `decay_weight` equal to the candidate's extraction confidence. -/
theorem merge_fresh_insert (bonus now : ℚ) (s : Store) (cid : ContactId)
    (c : CandidateFact) (hc : cid ∈ s.knownContacts)
    (hn : histLookup s.facts (cid, c.key) = none) :
    ∃ s', merge bonus now s cid c = Except.ok s' ∧
      factHistory s' cid c.key =
        [{ key := c.key, value := c.value, confidence := c.confidence,
           decay_weight := c.confidence, version := 1,
           first_observed := now, last_reinforced := now,
           origin_message_id := c.origin_message_id }] := by
  refine ⟨{ s with facts := histSet s.facts (cid, c.key) [freshFact now c] }, ?_, ?_⟩
  · simp [merge, hc, hn]
  · simp [factHistory, histLookup_histSet_self, freshFact]

/-- Witness for C3: a first candidate fact `interest = hiking` with
confidence 0.9 merged for known contact 7 yields exactly one stored
fact, version 1, decay weight 0.9. -/
theorem merge_fresh_insert_witness :
    ∃ s', merge 2 0 (Store.mk [7] []) 7 (CandidateFact.mk "interest" "hiking" (9/10) 42)
        = Except.ok s' ∧
      factHistory s' 7 "interest" =
        [{ key := "interest", value := "hiking", confidence := 9/10,
           decay_weight := 9/10, version := 1,
           first_observed := 0, last_reinforced := 0,
           origin_message_id := 42 }] :=
  merge_fresh_insert 2 0 (Store.mk [7] []) 7
    (CandidateFact.mk "interest" "hiking" (9/10) 42) (by decide) rfl

/-- C1: for every stage and every signal bundle, `evaluate` never moves
the stage earlier in the enum order except the single
`negotiation → logistics_candidate` edge, which fires only when the stall
condition holds; it never advances more than one position per call, even
when every advance precondition is simultaneously satisfied; and any
regression lands outside `negotiation`, so the regression can fire at
most once per stay in `negotiation` (the stay ends with the firing). -/
theorem evaluate_no_regression_one_step (st : Stage) (s : Signals) :
    (stageIdx st ≤ stageIdx (evaluate st s).1 ∨
      (st = Stage.negotiation ∧ (evaluate st s).1 = Stage.logistics_candidate ∧
        stalled s = true)) ∧
    stageIdx (evaluate st s).1 ≤ stageIdx st + 1 ∧
    (stageIdx (evaluate st s).1 < stageIdx st → (evaluate st s).1 ≠ Stage.negotiation) := by
  cases st <;> simp only [evaluate] <;> (try split_ifs) <;> simp_all [stageIdx]

/-- C10: a contact row created without explicit values for the defaulted
columns starts at `progression_stage = 'discovery'` — the first stage of
the enum order — and with `ai_enabled = FALSE`. -/
theorem insertContact_defaults (uid : Nat) (wid : String) (nm : Option String) :
    (insertContact uid wid nm).progression_stage = Stage.discovery ∧
    (insertContact uid wid nm).ai_enabled = false ∧
    stageIdx (insertContact uid wid nm).progression_stage = 0 :=
  ⟨rfl, rfl, rfl⟩

/-- C2: a fact's effective weight for ranking equals
`decay_weight * exp(-lambda * (now - last_reinforced))`, and for every
positive lambda it is monotonically non-increasing as the time elapsed
since `last_reinforced` grows, all other fields held equal. -/
theorem effectiveWeight_formula_antitone (f : Fact) (lam : ℝ) (now1 now2 : ℚ)
    (hl : 0 < lam) (hw : 0 ≤ f.decay_weight) (h : now1 ≤ now2) :
    effectiveWeight lam now1 f =
      (f.decay_weight : ℝ) * Real.exp (-(lam * ((now1 : ℝ) - (f.last_reinforced : ℝ)))) ∧
    effectiveWeight lam now2 f ≤ effectiveWeight lam now1 f := by
  refine ⟨rfl, ?_⟩
  have hw' : (0 : ℝ) ≤ (f.decay_weight : ℝ) := by exact_mod_cast hw
  have h' : (now1 : ℝ) ≤ (now2 : ℝ) := by exact_mod_cast h
  unfold effectiveWeight
  have hexp : Real.exp (-(lam * ((now2 : ℝ) - (f.last_reinforced : ℝ)))) ≤
      Real.exp (-(lam * ((now1 : ℝ) - (f.last_reinforced : ℝ)))) := by
    apply Real.exp_le_exp.2
    have := mul_le_mul_of_nonneg_left (sub_le_sub_right h' (f.last_reinforced : ℝ)) hl.le
    linarith
  exact mul_le_mul_of_nonneg_left hexp hw'

/-- Witness for C2: for the stored `interest = hiking` fact with decay
weight 0.9, last reinforced at time 0 and lambda 1, the effective weight
at time 1 is at most the effective weight at time 0. -/
theorem effectiveWeight_formula_antitone_witness :
    effectiveWeight 1 1 (Fact.mk "interest" "hiking" (9/10) (9/10) 1 0 0 42) ≤
      effectiveWeight 1 0 (Fact.mk "interest" "hiking" (9/10) (9/10) 1 0 0 42) :=
  (effectiveWeight_formula_antitone (Fact.mk "interest" "hiking" (9/10) (9/10) 1 0 0 42)
    1 0 1 one_pos (by norm_num) (by norm_num)).2

/-- C4: merging a candidate whose key already has a stored history
`f :: t` (newest first) for a known contact: if the candidate value
differs from the most recent value, a new version `f.version + 1` is
created with decay weight `max(existing, confidence) * bonus` clamped to
1.0; if the value matches, the most recent fact is reinforced in place —
`last_reinforced = now` and the decay weight boosted (never decreased,
for any bonus > 1) — without bumping the version. -/
theorem merge_existing_key (bonus now : ℚ) (s : Store) (cid : ContactId)
    (c : CandidateFact) (f : Fact) (t : List Fact)
    (hc : cid ∈ s.knownContacts)
    (hl : histLookup s.facts (cid, c.key) = some (f :: t))
    (hb : 1 < bonus) (hw0 : 0 ≤ f.decay_weight) (hw1 : f.decay_weight ≤ 1) :
    (c.value ≠ f.value →
      ∃ s', merge bonus now s cid c = Except.ok s' ∧
        factHistory s' cid c.key =
          { key := c.key, value := c.value, confidence := c.confidence,
            decay_weight := clamp1 (max f.decay_weight c.confidence * bonus),
            version := f.version + 1, first_observed := now,
            last_reinforced := now,
            origin_message_id := c.origin_message_id } :: f :: t) ∧
    (c.value = f.value →
      ∃ s', merge bonus now s cid c = Except.ok s' ∧
        factHistory s' cid c.key =
          { f with last_reinforced := now,
                   decay_weight := clamp1 (f.decay_weight * bonus) } :: t ∧
        f.decay_weight ≤ clamp1 (f.decay_weight * bonus)) := by
  constructor
  · intro hne
    refine ⟨{ s with facts := histSet s.facts (cid, c.key) ({ key := c.key, value := c.value, confidence := c.confidence, decay_weight := clamp1 (max f.decay_weight c.confidence * bonus), version := f.version + 1, first_observed := now, last_reinforced := now, origin_message_id := c.origin_message_id } :: f :: t) }, ?_, ?_⟩
    · simp only [merge, hc, if_true, hl]
      rw [if_neg hne]
    · simp [factHistory, histLookup_histSet_self]
  · intro heq
    refine ⟨{ s with facts := histSet s.facts (cid, c.key) ({ f with last_reinforced := now, decay_weight := clamp1 (f.decay_weight * bonus) } :: t) }, ?_, ?_, ?_⟩
    · simp only [merge, hc, if_true, hl]
      rw [if_pos heq]
    · simp [factHistory, histLookup_histSet_self]
    · exact le_min hw1 (le_mul_of_one_le_right hw0 hb.le)

/-- Witness for C4: contact 7 holds `interest = hiking` at version 1
with decay weight 0.9; merging the differing candidate
`interest = skiing` with confidence 0.5 and bonus 2 creates version 2
with decay weight `min 1 (max 0.9 0.5 * 2) = 1`, keeping the old
version in the history. -/
theorem merge_existing_key_witness :
    ∃ s', merge 2 5 (Store.mk [7] [((7, "interest"),
        [Fact.mk "interest" "hiking" (9/10) (9/10) 1 0 0 42])]) 7
        (CandidateFact.mk "interest" "skiing" (1/2) 43) = Except.ok s' ∧
      factHistory s' 7 "interest" =
        { key := "interest", value := "skiing", confidence := 1/2,
          decay_weight := clamp1 (max (9/10) (1/2) * 2),
          version := 1 + 1, first_observed := 5, last_reinforced := 5,
          origin_message_id := 43 } ::
          Fact.mk "interest" "hiking" (9/10) (9/10) 1 0 0 42 :: [] :=
  (merge_existing_key 2 5 (Store.mk [7] [((7, "interest"),
      [Fact.mk "interest" "hiking" (9/10) (9/10) 1 0 0 42])]) 7
      (CandidateFact.mk "interest" "skiing" (1/2) 43)
      (Fact.mk "interest" "hiking" (9/10) (9/10) 1 0 0 42) []
      (by decide) rfl (by norm_num) (by norm_num) (by norm_num)).1
    (by decide)

theorem merge_latest_step (bonus now : ℚ) (s s' : Store) (cid : ContactId)
    (c : CandidateFact) (h : merge bonus now s cid c = Except.ok s') :
    ∃ f', latestFact s' cid c.key = some f' ∧ f'.last_reinforced = now ∧
      latestVersion s cid c.key ≤ f'.version ∧
      latestVersion s' cid c.key = f'.version := by
  by_cases hmem : cid ∈ s.knownContacts
  · rcases hl : histLookup s.facts (cid, c.key) with _ | hist
    · unfold merge at h
      rw [if_pos hmem, hl] at h
      simp only [Except.ok.injEq] at h
      subst h
      refine ⟨freshFact now c, ?_, rfl, ?_, ?_⟩ <;>
        simp [latestFact, latestVersion, factHistory, histLookup_histSet_self, freshFact, hl]
    · rcases hist with _ | ⟨f, t⟩
      · unfold merge at h
        rw [if_pos hmem, hl] at h
        simp only [Except.ok.injEq] at h
        subst h
        refine ⟨freshFact now c, ?_, rfl, ?_, ?_⟩ <;>
          simp [latestFact, latestVersion, factHistory, histLookup_histSet_self, freshFact, hl]
      · by_cases hv : c.value = f.value
        · unfold merge at h
          rw [if_pos hmem, hl] at h
          simp only [hv, if_true, Except.ok.injEq] at h
          subst h
          refine ⟨{ f with last_reinforced := now, decay_weight := clamp1 (f.decay_weight * bonus) }, ?_, rfl, ?_, ?_⟩ <;>
            simp [latestFact, latestVersion, factHistory, histLookup_histSet_self, hl]
        · unfold merge at h
          rw [if_pos hmem, hl] at h
          simp only [hv, if_false, Except.ok.injEq] at h
          subst h
          refine ⟨{ key := c.key, value := c.value, confidence := c.confidence, decay_weight := clamp1 (max f.decay_weight c.confidence * bonus), version := f.version + 1, first_observed := now, last_reinforced := now, origin_message_id := c.origin_message_id }, ?_, rfl, ?_, ?_⟩ <;>
            simp [latestFact, latestVersion, factHistory, histLookup_histSet_self, hl]
  · unfold merge at h
    rw [if_neg hmem] at h
    cases h

/-- C5 counterexample: two successive merges of the identical candidate
`interest = hiking` (confidence 0.9) for known contact 7 — the first
inserts version 1, the second reinforces in place, so the version after
the second merge still equals 1: across this sequence of merges the
version is NOT strictly increasing. -/
theorem merge_version_not_strictly_increasing :
    ∃ s1 s2,
      merge 2 0 (Store.mk [7] []) 7 (CandidateFact.mk "interest" "hiking" (9/10) 42) =
        Except.ok s1 ∧
      merge 2 1 s1 7 (CandidateFact.mk "interest" "hiking" (9/10) 42) = Except.ok s2 ∧
      latestVersion s1 7 "interest" = 1 ∧ latestVersion s2 7 "interest" = 1 := by
  refine ⟨_, _, rfl, rfl, ?_, ?_⟩ <;> decide

/-- C5 amended: across any sequence of merges on one key of one contact,
applied in non-decreasing time order starting no earlier than the stored
`last_reinforced`, the latest version is non-decreasing (it increases
exactly when a differing value creates a new version — a matching value
reinforces in place without bumping it) and `last_reinforced` is
non-decreasing. -/
theorem mergeAll_version_lr_mono (bonus : ℚ) (cid : ContactId) (k : String)
    (ops : List (CandidateFact × ℚ)) :
    ∀ (s s' : Store),
      mergeAll bonus cid s ops = Except.ok s' →
      (∀ p ∈ ops, (Prod.fst p).key = k) →
      List.Sorted (fun a b => a ≤ b) (List.map Prod.snd ops) →
      (∀ f, latestFact s cid k = some f → ∀ p ∈ ops, f.last_reinforced ≤ Prod.snd p) →
      latestVersion s cid k ≤ latestVersion s' cid k ∧
      (∀ f f', latestFact s cid k = some f → latestFact s' cid k = some f' →
        f.last_reinforced ≤ f'.last_reinforced) := by
  induction ops with
  | nil =>
      intro s s' h _ _ _
      simp only [mergeAll, Except.ok.injEq] at h
      subst h
      refine ⟨le_refl _, fun f f' hf hf' => ?_⟩
      rw [hf] at hf'
      cases hf'
      exact le_refl _
  | cons p rest ih =>
      obtain ⟨c, t⟩ := p
      intro s s' h hks hsort hinit
      simp only [mergeAll] at h
      cases hm : merge bonus t s cid c with
      | error e => rw [hm] at h; cases h
      | ok s1 =>
          rw [hm] at h
          obtain ⟨f1, hf1, hlr1, hv1, hv1'⟩ := merge_latest_step bonus t s s1 cid c hm
          have hck : c.key = k := hks (c, t) (List.mem_cons_self _ _)
          rw [hck] at hf1 hv1 hv1'
          simp only [List.map_cons, List.sorted_cons] at hsort
          obtain ⟨hts, hsort'⟩ := hsort
          have hinit' : ∀ f, latestFact s1 cid k = some f →
              ∀ p ∈ rest, f.last_reinforced ≤ Prod.snd p := by
            intro f hf p hp
            rw [hf1] at hf
            cases hf
            rw [hlr1]
            exact hts _ (List.mem_map_of_mem _ hp)
          have hks' : ∀ p ∈ rest, (Prod.fst p).key = k :=
            fun p hp => hks p (List.mem_cons_of_mem _ hp)
          obtain ⟨hv2, hlr2⟩ := ih s1 s' h hks' hsort' hinit'
          constructor
          · exact le_trans (le_trans hv1 (le_of_eq hv1'.symm)) hv2
          · intro f f' hf hf'
            have h1 : f.last_reinforced ≤ t := hinit f hf (c, t) (List.mem_cons_self _ _)
            have h2 : f1.last_reinforced ≤ f'.last_reinforced := hlr2 f1 f' hf1 hf'
            rw [hlr1] at h2
            exact le_trans h1 h2

/-- Witness for the amended C5: merging `interest = hiking` twice for
contact 7, at times 0 and 1, ends with the latest version (still 1) not
below the initial one (0) and the latest `last_reinforced` not below
any earlier one. -/
theorem mergeAll_version_lr_mono_witness :
    latestVersion (Store.mk [7] []) 7 "interest" ≤
      latestVersion (Store.mk [7] [((7, "interest"),
        [Fact.mk "interest" "hiking" (9/10) (clamp1 (9/10 * 2)) 1 0 1 42])]) 7 "interest" ∧
    (∀ f f', latestFact (Store.mk [7] []) 7 "interest" = some f →
      latestFact (Store.mk [7] [((7, "interest"),
        [Fact.mk "interest" "hiking" (9/10) (clamp1 (9/10 * 2)) 1 0 1 42])]) 7 "interest" = some f' →
      f.last_reinforced ≤ f'.last_reinforced) :=
  mergeAll_version_lr_mono 2 7 "interest"
    [(CandidateFact.mk "interest" "hiking" (9/10) 42, 0),
     (CandidateFact.mk "interest" "hiking" (9/10) 42, 1)]
    (Store.mk [7] [])
    (Store.mk [7] [((7, "interest"), [Fact.mk "interest" "hiking" (9/10) (clamp1 (9/10 * 2)) 1 0 1 42])])
    rfl (by decide) (by decide)
    (by intro f hf; simp [latestFact, factHistory, histLookup] at hf)

/-- C6: the Policy Gate applies its four checks in the fixed order
(automation enabled, sensitivity screen, rate limit,
stage-appropriateness) and short-circuits on the first failure: for
every input its decision admits exactly when no check is violated and
reports as reasons exactly the first violated check of that order; in
particular, with automation disabled globally the decision is a
rejection whose reason list is exactly `[AutomationDisabled]`,
regardless of the sensitivity, rate-limit or stage state. -/
theorem policyGate_first_violation (i : PolicyInput) :
    policyGate i = PolicyDecision.mk (checkViolations i).isEmpty ((checkViolations i).take 1) ∧
    (i.globalEnabled = false →
      policyGate i = PolicyDecision.mk false [ReasonCode.AutomationDisabled]) := by
  obtain ⟨g, c, sf, re, st, nl⟩ := i
  cases g <;> cases c <;> cases sf <;> cases re <;> cases st <;> cases nl <;> decide

/-- C7: pipeline processing is idempotent in `message_id`: from any
starting Fact Store, progression state and processed-id set, running the
pipeline twice on the same message with the same extracted candidates
leaves exactly the state of running it once — the second run is a no-op
against the Fact Store and the Progression machine. -/
theorem processMessage_idempotent (bonus : ℚ) (sig : Signals) (ps : PipelineState)
    (m : Message) (cands : List CandidateFact) :
    processMessage bonus sig (processMessage bonus sig ps m cands) m cands =
      processMessage bonus sig ps m cands := by
  by_cases h : m.message_id ∈ ps.processed
  · simp [processMessage, h]
  · cases hm : mergeAll bonus m.contact_id ps.store (cands.map (fun c => (c, m.timestamp))) with
    | error e => simp [processMessage, h, hm]
    | ok store' => simp [processMessage, h, hm]

/-- C8: the Context Assembler is pure: run in state-passing form inside
a pipeline it returns the pipeline state unchanged (no side effects),
and a second call on the state returned by the first produces an output
identical to the first call's. -/
theorem assembleStep_pure (lam : ℝ) (K M budget : Nat) (ps : PipelineState)
    (m : Message) (history : List Message) :
    (assembleStep lam K M budget ps m history).2 = ps ∧
    (assembleStep lam K M budget
        (assembleStep lam K M budget ps m history).2 m history).1 =
      (assembleStep lam K M budget ps m history).1 :=
  ⟨rfl, rfl⟩

/-- C9: `merge` on a contact id that is not known to the store fails
with `ErrorKind.UnknownContact`, never yields a store (so no contact and
no fact is ever created as a side effect), and a pipeline run for a
message of that contact carrying at least one candidate fact leaves the
pipeline state exactly unchanged — the error is confined to that single
message's run. -/
theorem merge_unknown_contact (bonus now : ℚ) (s : Store) (cid : ContactId)
    (c : CandidateFact) (h : cid ∉ s.knownContacts) :
    merge bonus now s cid c = Except.error ErrorKind.UnknownContact ∧
    (∀ s', merge bonus now s cid c ≠ Except.ok s') ∧
    (∀ (sig : Signals) (ps : PipelineState) (m : Message) (cands : List CandidateFact),
      ps.store = s → m.contact_id = cid → m.timestamp = now → cands ≠ [] →
      processMessage bonus sig ps m cands = ps) := by
  have hme : merge bonus now s cid c = Except.error ErrorKind.UnknownContact := by
    unfold merge
    rw [if_neg h]
  refine ⟨hme, ?_, ?_⟩
  · intro s' hs'
    rw [hme] at hs'
    cases hs'
  · intro sig ps m cands h1 h2 h3 h4
    by_cases hp : m.message_id ∈ ps.processed
    · simp [processMessage, hp]
    · cases cands with
      | nil => exact absurd rfl h4
      | cons c0 rest =>
          have hme0 : merge bonus m.timestamp ps.store m.contact_id c0 =
              Except.error ErrorKind.UnknownContact := by
            unfold merge
            rw [h1, h2, if_neg h]
          simp [processMessage, hp, mergeAll, hme0]

/-- Witness for C9: merging a candidate for contact 5 against a store
that knows no contacts fails with `UnknownContact`. -/
theorem merge_unknown_contact_witness :
    merge 2 0 (Store.mk [] []) 5 (CandidateFact.mk "interest" "hiking" (9/10) 42) =
      Except.error ErrorKind.UnknownContact :=
  (merge_unknown_contact 2 0 (Store.mk [] []) 5
    (CandidateFact.mk "interest" "hiking" (9/10) 42) (by decide)).1

end Lovely
